import Mathlib

/-!
Verification development for a salon booking backend.

The definitions below are a shallow embedding of the JavaScript source:

* MongoDB collections become Lean lists of records;
* `findOne` becomes `List.find?`, `updateOne` / mongoose `save()` of a
  mutated document becomes `updateFirst`, inserts become list append;
* the unique indexes declared in the Mongoose schemas are modelled as
  checks performed when a write is executed: a violating insert or
  key-changing update fails the way a MongoDB duplicate-key error does,
  and the controllers catch it and report a server error (HTTP 500);
* JavaScript numbers carrying prices, durations and discounts are
  modelled as `ℚ`; `Date` values are modelled as `Int` (milliseconds
  since the epoch for instants, a canonical midnight value for days);
* express-validator checks attached to the routes run before the
  controller body and are modelled as leading guards;
* string parsing of dates and clock times is performed upstream of the
  modelled functions, which receive the already-canonicalized values.
-/

namespace Salon

/-- Replace the first element satisfying `p` (MongoDB `updateOne`, or a
mongoose `save()` of the single matched document). -/
def updateFirst (p : α → Bool) (f : α → α) : List α → List α
  | [] => []
  | x :: xs => if p x then f x :: xs else x :: updateFirst p f xs

/-- The database state after a controller call: an error reply leaves the
store untouched. -/
def dbAfter (db : List α) : Except ε (List α) → List α
  | .ok db2 => db2
  | .error _ => db

theorem length_updateFirst (p : α → Bool) (f : α → α) (l : List α) :
    (updateFirst p f l).length = l.length := by
  induction l with
  | nil => rfl
  | cons x xs ih =>
    by_cases hp : p x <;> simp [updateFirst, hp, ih]

theorem mem_updateFirst {p : α → Bool} {f : α → α} {l : List α} {a : α}
    (h : a ∈ updateFirst p f l) : a ∈ l ∨ ∃ x ∈ l, p x = true ∧ a = f x := by
  induction l with
  | nil => simp [updateFirst] at h
  | cons x xs ih =>
    cases hp : p x with
    | true =>
      simp only [updateFirst, hp, if_true] at h
      rcases List.mem_cons.mp h with h | h
      · exact Or.inr ⟨x, by simp, hp, h⟩
      · exact Or.inl (List.mem_cons_of_mem _ h)
    | false =>
      simp only [updateFirst, hp, Bool.false_eq_true, if_false] at h
      rcases List.mem_cons.mp h with h | h
      · exact Or.inl (by simp [h])
      · rcases ih h with h | ⟨y, hy, hpy, hay⟩
        · exact Or.inl (List.mem_cons_of_mem _ h)
        · exact Or.inr ⟨y, List.mem_cons_of_mem _ hy, hpy, hay⟩

theorem updateFirst_eq_of_find?_none {p : α → Bool} {f : α → α} {l : List α}
    (h : l.find? p = none) : updateFirst p f l = l := by
  induction l with
  | nil => rfl
  | cons x xs ih =>
    rw [List.find?_cons] at h
    cases hp : p x with
    | true => simp [hp] at h
    | false =>
      simp only [hp] at h
      simp [updateFirst, hp, ih h]

theorem find?_updateFirst_self {p : α → Bool} {f : α → α} {l : List α} {a : α}
    (h : l.find? p = some a) (hf : p (f a) = true) :
    (updateFirst p f l).find? p = some (f a) := by
  induction l with
  | nil => simp at h
  | cons x xs ih =>
    rw [List.find?_cons] at h
    cases hp : p x with
    | true =>
      simp only [hp] at h
      cases h
      simp [updateFirst, hp, List.find?_cons, hf]
    | false =>
      simp only [hp] at h
      simp [updateFirst, hp, List.find?_cons, ih h]

theorem find?_updateFirst_other {p q : α → Bool} {f : α → α} {l : List α}
    (h1 : ∀ x, p x = true → q x = false)
    (h2 : ∀ x, p x = true → q (f x) = false) :
    (updateFirst p f l).find? q = l.find? q := by
  induction l with
  | nil => rfl
  | cons x xs ih =>
    cases hp : p x with
    | true =>
      simp [updateFirst, hp, List.find?_cons, h1 x hp, h2 x hp]
    | false =>
      cases hq : q x with
      | true => simp [updateFirst, hp, List.find?_cons, hq]
      | false => simp [updateFirst, hp, List.find?_cons, hq, ih]

theorem filter_length_updateFirst_eq {p q : α → Bool} {f : α → α} {l : List α}
    (h : ∀ x, p x = true → q (f x) = q x) :
    ((updateFirst p f l).filter q).length = (l.filter q).length := by
  induction l with
  | nil => rfl
  | cons x xs ih =>
    cases hp : p x with
    | true =>
      cases hq : q x with
      | true => simp [updateFirst, hp, List.filter_cons, h x hp, hq]
      | false => simp [updateFirst, hp, List.filter_cons, h x hp, hq]
    | false =>
      cases hq : q x with
      | true => simp [updateFirst, hp, List.filter_cons, hq, ih]
      | false => simp [updateFirst, hp, List.filter_cons, hq, ih]

theorem filter_length_updateFirst_le {p q : α → Bool} {f : α → α} {l : List α}
    (h : ∀ x, p x = true → q (f x) = false) :
    ((updateFirst p f l).filter q).length ≤ (l.filter q).length := by
  induction l with
  | nil => exact Nat.le_refl _
  | cons x xs ih =>
    cases hp : p x with
    | true =>
      cases hq : q x with
      | true => simp [updateFirst, hp, List.filter_cons, h x hp, hq]
      | false => simp [updateFirst, hp, List.filter_cons, h x hp, hq]
    | false =>
      cases hq : q x with
      | true => simpa [updateFirst, hp, List.filter_cons, hq] using ih
      | false => simpa [updateFirst, hp, List.filter_cons, hq] using ih

theorem updateFirst_splice {p : α → Bool} {f : α → α} {l : List α} {a : α}
    (h : l.find? p = some a) :
    ∃ l₁ l₂, l = l₁ ++ a :: l₂ ∧ (∀ x ∈ l₁, p x = false) ∧
      updateFirst p f l = l₁ ++ f a :: l₂ := by
  induction l with
  | nil => simp at h
  | cons x xs ih =>
    rw [List.find?_cons] at h
    cases hp : p x with
    | true =>
      simp only [hp] at h
      cases h
      exact ⟨[], xs, by simp, by simp, by simp [updateFirst, hp]⟩
    | false =>
      simp only [hp] at h
      rcases ih h with ⟨l₁, l₂, hl, hl₁, hu⟩
      refine ⟨x :: l₁, l₂, by simp [hl], ?_, by simp [updateFirst, hp, hu]⟩
      intro y hy
      rcases List.mem_cons.mp hy with rfl | hy
      · exact hp
      · exact hl₁ y hy

/-- Lists of length at most one have at most one member. -/
theorem eq_of_mem_of_length_le_one {l : List α} {a b : α}
    (hl : l.length ≤ 1) (ha : a ∈ l) (hb : b ∈ l) : a = b := by
  match l with
  | [] => simp at ha
  | [x] =>
    simp only [List.mem_singleton] at ha hb
    rw [ha, hb]
  | x :: y :: xs => simp at hl

/-! ### Appointment scheduling (models/Appointment.js, controllers/appointmentController.js)

`appointmentSchema`: customer, services, combo, appointmentDate, timeSlot
(an enumerated string), status, notes, plus
`appointmentSchema.index({ appointmentDate: 1, timeSlot: 1 }, { unique: true })`
— a unique index over the bare pair, with no filter on status. -/

/-- The fixed business-hours enumeration from the `timeSlot` schema enum,
in declaration order. -/
def timeSlots : List String :=
  ["9:00 AM", "10:00 AM", "11:00 AM", "12:00 PM",
   "1:00 PM", "2:00 PM", "3:00 PM", "4:00 PM", "5:00 PM"]

inductive ApptStatus
  | pending
  | confirmed
  | completed
  | cancelled
  | rescheduled
deriving DecidableEq

structure Appointment where
  id : Nat
  customer : Nat
  services : List Nat
  combo : Option Nat
  appointmentDate : Int
  timeSlot : String
  status : ApptStatus
  notes : String
deriving DecidableEq

/-- Error replies of the appointment controllers, one constructor per
distinct reply the JavaScript code can produce. -/
inductive ApptErr
  | validation
  | missingItems
  | conflict
  | comboUnavailable
  | servicesUnavailable
  | notFound
  | invalidState
  | server
deriving DecidableEq

/-- Service catalog entry (models/Service.js): duration, price, isActive. -/
structure SvcRecord where
  id : Nat
  duration : ℚ
  price : ℚ
  isActive : Bool
deriving DecidableEq

/-- Combo member subdocument per the combo schema: only the service
reference and the sequence number are persisted (mongoose drops the
extra name/duration/price fields the controller passes, since they are
not in the schema). -/
structure ComboSvc where
  service : Nat
  sequence : Nat
deriving DecidableEq

/-- Combo catalog entry (models/Combo.js). -/
structure Combo where
  id : Nat
  name : String
  description : String
  services : List ComboSvc
  gender : String
  totalDuration : ℚ
  totalPrice : ℚ
  discount : ℚ
  isActive : Bool
deriving DecidableEq

/-- The `findOne({ appointmentDate, timeSlot, status: { $in: ['pending',
'confirmed'] } })` filter used by the slot-conflict checks. -/
def pcAt (date : Int) (slot : String) (a : Appointment) : Bool :=
  decide (a.appointmentDate = date ∧ a.timeSlot = slot ∧
    (a.status = .pending ∨ a.status = .confirmed))

/-- The key of the unique index on (appointmentDate, timeSlot). -/
def sameKey (date : Int) (slot : String) (a : Appointment) : Bool :=
  decide (a.appointmentDate = date ∧ a.timeSlot = slot)

/-- Insert a new appointment document: `appointment.save()`.  The unique
index on (appointmentDate, timeSlot) makes the write fail with a
duplicate-key error — caught by the controller as a 500 — whenever any
document (whatever its status) already holds the same key. -/
def saveNew (db : List Appointment) (a : Appointment) :
    Except ApptErr (List Appointment) :=
  if (db.find? (sameKey a.appointmentDate a.timeSlot)).isSome then .error .server
  else .ok (db ++ [a])

/-- `createAppointment` (appointmentController.js).  The leading guard is
the route validator `check('timeSlot').isIn([...])`; then the controller:
reject when neither services nor combo is supplied, slot-conflict check
against pending/confirmed bookings, catalog validation (combo must exist
and be active, or the count of matching active services must equal the
request list length), then insert with status pending.  When a combo is
given, `services: combo ? undefined : services` discards the list. -/
def createAppointment (combosCat : List Combo) (servicesCat : List SvcRecord)
    (db : List Appointment) (newId customer : Nat) (services : List Nat)
    (combo : Option Nat) (appointmentDate : Int) (timeSlot : String)
    (notes : String) : Except ApptErr (List Appointment) :=
  if timeSlot ∉ timeSlots then .error .validation
  else if services = [] ∧ combo = none then .error .missingItems
  else if (db.find? (pcAt appointmentDate timeSlot)).isSome then .error .conflict
  else
    match combo with
    | some c =>
      if (combosCat.find? (fun cb => decide (cb.id = c ∧ cb.isActive))).isSome then
        saveNew db ⟨newId, customer, [], some c, appointmentDate, timeSlot, .pending, notes⟩
      else .error .comboUnavailable
    | none =>
      if (servicesCat.filter (fun s => decide (s.id ∈ services ∧ s.isActive))).length
          = services.length then
        saveNew db ⟨newId, customer, services, none, appointmentDate, timeSlot, .pending, notes⟩
      else .error .servicesUnavailable

/-- The `findOne({ _id, customer })` filter of `cancelAppointment`. -/
def cancelMatch (id customerId : Nat) (a : Appointment) : Bool :=
  decide (a.id = id ∧ a.customer = customerId)

/-- `cancelAppointment` (appointmentController.js): owner-scoped lookup,
NOT_FOUND when absent, INVALID_STATE when completed or cancelled,
otherwise set status to cancelled and save (the key fields are untouched,
so the unique index cannot fire). -/
def cancelAppointment (db : List Appointment) (id customerId : Nat) :
    Except ApptErr (List Appointment) :=
  match db.find? (cancelMatch id customerId) with
  | none => .error .notFound
  | some a =>
    if a.status = .completed ∨ a.status = .cancelled then .error .invalidState
    else .ok (updateFirst (cancelMatch id customerId)
        (fun b => {b with status := ApptStatus.cancelled}) db)

/-- `rescheduleAppointment` (appointmentController.js).  Route validator
on the time slot, NOT_FOUND on missing id, INVALID_STATE when completed
or cancelled, CONFLICT when a different pending/confirmed appointment
holds the target slot, then `appointment.save()` with the new key —
which the unique index rejects (duplicate key, reported as a 500)
whenever any other document holds the target (newDate, newTimeSlot). -/
def rescheduleAppointment (db : List Appointment) (id : Nat)
    (newDate : Int) (newSlot : String) : Except ApptErr (List Appointment) :=
  if newSlot ∉ timeSlots then .error .validation
  else
    match db.find? (fun a => decide (a.id = id)) with
    | none => .error .notFound
    | some a =>
      if a.status = .completed ∨ a.status = .cancelled then .error .invalidState
      else if (db.find? (fun b => decide (b.appointmentDate = newDate ∧
          b.timeSlot = newSlot ∧ (b.status = .pending ∨ b.status = .confirmed) ∧
          b.id ≠ id))).isSome then .error .conflict
      else if (db.find? (fun b => decide (b.id ≠ id ∧ b.appointmentDate = newDate ∧
          b.timeSlot = newSlot))).isSome then .error .server
      else .ok (updateFirst (fun b => decide (b.id = id))
          (fun b => {b with appointmentDate := newDate, timeSlot := newSlot,
                            status := ApptStatus.rescheduled}) db)

/-- The query filter of `getTodaysAppointments`: date within the current
day and status in pending/confirmed/rescheduled. -/
def todayFilter (todayStart todayEnd : Int) (a : Appointment) : Bool :=
  decide (todayStart ≤ a.appointmentDate ∧ a.appointmentDate ≤ todayEnd ∧
    (a.status = .pending ∨ a.status = .confirmed ∨ a.status = .rescheduled))

/-- Byte-wise (code-point) lexicographic comparison on character lists:
how MongoDB compares the plain `timeSlot` strings under `sort({ timeSlot: 1 })`. -/
def charListLe : List Char → List Char → Bool
  | [], _ => true
  | _ :: _, [] => false
  | a :: as, b :: bs =>
    if a.toNat < b.toNat then true
    else if a.toNat = b.toNat then charListLe as bs
    else false

def strLe (a b : String) : Bool := charListLe a.data b.data

def insertSorted (le : α → α → Bool) (x : α) : List α → List α
  | [] => [x]
  | y :: ys => if le x y then x :: y :: ys else y :: insertSorted le x ys

/-- Ascending sort by a boolean comparison (insertion sort). -/
def sortByKey (le : α → α → Bool) (l : List α) : List α :=
  l.foldr (insertSorted le) []

/-- `getTodaysAppointments` (appointmentController.js): filter the current
day's pending/confirmed/rescheduled appointments and sort them with
`sort({ timeSlot: 1 })`, i.e. lexicographically on the slot string.
(The per-appointment totalDuration annotation is a read-only decoration
and is not modelled.) -/
def getTodaysAppointments (db : List Appointment) (todayStart todayEnd : Int) :
    List Appointment :=
  sortByKey (fun a b => strLe a.timeSlot b.timeSlot)
    (db.filter (todayFilter todayStart todayEnd))

/-- Position of a slot in the fixed business-hours enumeration. -/
def slotIndex (s : String) : Nat := timeSlots.findIdx (fun t => t == s)

/-! ### Concrete stores used to exercise the scheduler at specific inputs -/

/-- A store whose only appointment at (day 0, 10:00 AM) is cancelled. -/
def dbCancelledAtTen : List Appointment :=
  [⟨1, 7, [], some 5, 0, "10:00 AM", .cancelled, ""⟩]

/-- A one-element combo catalog with an active combo (id 5). -/
def combosActiveFive : List Combo :=
  [⟨5, "Bridal", "", [⟨9, 1⟩], "unisex", 30, 100, 0, true⟩]

/-- A cancelled appointment at (day 0, 10:00 AM) plus a pending one at
(day 0, 11:00 AM) that we try to move into the freed slot. -/
def dbFreedSlot : List Appointment :=
  [⟨1, 7, [], some 5, 0, "10:00 AM", .cancelled, ""⟩,
   ⟨3, 9, [], some 5, 0, "11:00 AM", .pending, ""⟩]

/-- Two pending appointments today, at 9:00 AM and 10:00 AM. -/
def dbToday : List Appointment :=
  [⟨1, 7, [], some 5, 0, "9:00 AM", .pending, ""⟩,
   ⟨2, 8, [], some 5, 0, "10:00 AM", .pending, ""⟩]

/-- C1.  The claim says a slot whose only occupant is cancelled (or
completed/rescheduled) no longer blocks reuse, so Create succeeds there
with a persisted pending appointment.  On the code it does not: the
status-filtered conflict check passes, but the schema's unique index on
the bare (appointmentDate, timeSlot) pair makes the insert fail with a
duplicate-key error, reported as a server error, and nothing is
persisted.  This theorem evaluates the embedded code at that failing
input: the store holds no pending/confirmed appointment at the slot, yet
Create returns the server error and leaves the store unchanged. -/
theorem createAppointment_blocked_by_stale_unique_index :
    (∀ a ∈ dbCancelledAtTen, ¬ (a.appointmentDate = 0 ∧ a.timeSlot = "10:00 AM" ∧
      (a.status = .pending ∨ a.status = .confirmed)))
    ∧ createAppointment combosActiveFive [] dbCancelledAtTen 2 8 [] (some 5)
        0 "10:00 AM" "" = .error .server
    ∧ dbAfter dbCancelledAtTen (createAppointment combosActiveFive [] dbCancelledAtTen
        2 8 [] (some 5) 0 "10:00 AM" "") = dbCancelledAtTen := by
  refine ⟨by decide, rfl, rfl⟩

/-- C6.  The claim says Reschedule succeeds (overwriting date/slot and
forcing status rescheduled) whenever the appointment exists, is not
completed/cancelled, and no *different pending/confirmed* appointment
holds the target slot.  On the code, rescheduling appointment 3 into the
slot freed by the cancelled appointment 1 passes every one of those
checks but the save trips the unique index on (appointmentDate,
timeSlot), so the call fails with a server error and the store is
unchanged. -/
theorem rescheduleAppointment_blocked_by_stale_unique_index :
    (dbFreedSlot.find? (fun a => decide (a.id = 3)) =
      some ⟨3, 9, [], some 5, 0, "11:00 AM", .pending, ""⟩)
    ∧ (∀ b ∈ dbFreedSlot, ¬ (b.appointmentDate = 0 ∧ b.timeSlot = "10:00 AM" ∧
        (b.status = .pending ∨ b.status = .confirmed) ∧ b.id ≠ 3))
    ∧ rescheduleAppointment dbFreedSlot 3 0 "10:00 AM" = .error .server
    ∧ dbAfter dbFreedSlot (rescheduleAppointment dbFreedSlot 3 0 "10:00 AM")
        = dbFreedSlot := by
  refine ⟨rfl, by decide, rfl, rfl⟩

/-- C4.  The claim says ListToday orders by the fixed business-hours
enumeration ('9:00 AM' before '10:00 AM' …), not lexical string order.
The code sorts the string field with `sort({ timeSlot: 1 })`, which is
lexical: on a day holding a 9:00 AM and a 10:00 AM pending appointment it
returns 10:00 AM first, the reverse of the enumeration order. -/
theorem getTodaysAppointments_sorts_lexically :
    ((getTodaysAppointments dbToday 0 86399999).map (fun a => a.timeSlot)
      = ["10:00 AM", "9:00 AM"])
    ∧ slotIndex "9:00 AM" < slotIndex "10:00 AM" := by
  refine ⟨rfl, by decide⟩

/-- C5.  The Cancel contract: NOT_FOUND when no appointment matches both
id and acting customer; INVALID_STATE when the matched appointment is
completed or cancelled (store untouched); otherwise the matched
appointment's status becomes cancelled and every other appointment is
left exactly as it was (the store splits as `l₁ ++ a :: l₂` and only `a`
changes). -/
theorem cancelAppointment_spec : ∀ (db : List Appointment) (id cust : Nat),
    ((∀ a ∈ db, ¬ (a.id = id ∧ a.customer = cust)) →
      cancelAppointment db id cust = .error .notFound)
    ∧ (∀ a, db.find? (cancelMatch id cust) = some a →
        ((a.status = .completed ∨ a.status = .cancelled) →
          cancelAppointment db id cust = .error .invalidState ∧
          dbAfter db (cancelAppointment db id cust) = db)
        ∧ (¬ (a.status = .completed ∨ a.status = .cancelled) →
          cancelAppointment db id cust
            = .ok (updateFirst (cancelMatch id cust)
                (fun b => {b with status := ApptStatus.cancelled}) db)
          ∧ ∃ l₁ l₂, db = l₁ ++ a :: l₂ ∧
              cancelAppointment db id cust
                = .ok (l₁ ++ {a with status := ApptStatus.cancelled} :: l₂))) := by
  intro db id cust
  constructor
  · intro h
    have hf : db.find? (cancelMatch id cust) = none :=
      List.find?_eq_none.mpr (fun a ha => by simpa [cancelMatch] using h a ha)
    simp [cancelAppointment, hf]
  · intro a hfa
    constructor
    · intro hst
      constructor
      · simp [cancelAppointment, hfa, hst]
      · simp [cancelAppointment, hfa, hst, dbAfter]
    · intro hst
      have h1 : cancelAppointment db id cust
          = .ok (updateFirst (cancelMatch id cust)
              (fun b => {b with status := ApptStatus.cancelled}) db) := by
        simp [cancelAppointment, hfa, hst]
      refine ⟨h1, ?_⟩
      rcases updateFirst_splice
          (f := fun b => {b with status := ApptStatus.cancelled}) hfa with
        ⟨l₁, l₂, hdb, _, hu⟩
      exact ⟨l₁, l₂, hdb, by rw [h1, hu]⟩

/-- Witness for C5: cancelling a pending appointment by its owner
succeeds and stores status cancelled. -/
theorem cancelAppointment_spec_witness :
    cancelAppointment [⟨1, 7, [], some 5, 0, "9:00 AM", ApptStatus.pending, ""⟩] 1 7
      = .ok [⟨1, 7, [], some 5, 0, "9:00 AM", ApptStatus.cancelled, ""⟩] := by
  have h := ((cancelAppointment_spec
      [⟨1, 7, [], some 5, 0, "9:00 AM", ApptStatus.pending, ""⟩] 1 7).2
      ⟨1, 7, [], some 5, 0, "9:00 AM", ApptStatus.pending, ""⟩ rfl).2 (by decide)
  exact h.1.trans rfl

/-! ### The slot-uniqueness invariant (C2) -/

/-- At most one pending/confirmed appointment per (date, time slot). -/
def SlotInv (db : List Appointment) : Prop :=
  ∀ d s, ((db.filter (pcAt d s)).length ≤ 1)

theorem slotInv_nil : SlotInv [] := fun _ _ => by simp

theorem slotInv_saveNew {db : List Appointment} {a : Appointment}
    {date : Int} {slot : String} (h : SlotInv db)
    (hconf : db.find? (pcAt date slot) = none)
    (hd : a.appointmentDate = date) (hs : a.timeSlot = slot) :
    SlotInv (dbAfter db (saveNew db a)) := by
  unfold saveNew
  split
  · exact h
  · intro d s
    simp only [dbAfter, List.filter_append, List.length_append]
    cases hpc : pcAt d s a with
    | false =>
      simp only [List.filter_cons, hpc, List.filter_nil, List.length_nil,
        Nat.add_zero, Bool.false_eq_true, if_false]
      exact h d s
    | true =>
      have hda := of_decide_eq_true hpc
      have hdd : d = date := by rw [← hda.1, hd]
      have hss : s = slot := by rw [← hda.2.1, hs]
      have hempty : db.filter (pcAt d s) = [] := by
        rw [hdd, hss]
        exact List.filter_eq_nil_iff.mpr
          (fun x hx => by simpa using List.find?_eq_none.mp hconf x hx)
      simp [hempty, List.filter_cons, hpc]

theorem slotInv_create (cc : List Combo) (sc : List SvcRecord)
    (db : List Appointment) (nid cust : Nat) (svcs : List Nat)
    (cb : Option Nat) (date : Int) (slot : String) (notes : String)
    (h : SlotInv db) :
    SlotInv (dbAfter db
      (createAppointment cc sc db nid cust svcs cb date slot notes)) := by
  unfold createAppointment
  split
  · exact h
  split
  · exact h
  split
  · exact h
  next hconf =>
    have hnone : db.find? (pcAt date slot) = none := by
      cases hval : db.find? (pcAt date slot) with
      | none => rfl
      | some x => rw [hval] at hconf; simp at hconf
    split
    · split
      · exact slotInv_saveNew h hnone rfl rfl
      · exact h
    · split
      · exact slotInv_saveNew h hnone rfl rfl
      · exact h

theorem slotInv_reschedule (db : List Appointment) (i : Nat) (d0 : Int)
    (s0 : String) (h : SlotInv db) :
    SlotInv (dbAfter db (rescheduleAppointment db i d0 s0)) := by
  unfold rescheduleAppointment
  split
  · exact h
  split
  · exact h
  next a ha =>
    split
    · exact h
    split
    · exact h
    split
    · exact h
    intro d s
    refine le_trans (filter_length_updateFirst_le ?_) (h d s)
    intro x hx
    simp [pcAt]

/-- A run of customer Creates and privileged Reschedules, applied
sequentially against the shared store (an error reply leaves the store
as it was). -/
inductive ApptOp
  | create (newId customer : Nat) (services : List Nat) (combo : Option Nat)
      (date : Int) (slot : String) (notes : String)
  | reschedule (id : Nat) (date : Int) (slot : String)

def applyApptOp (cc : List Combo) (sc : List SvcRecord)
    (db : List Appointment) : ApptOp → List Appointment
  | .create nid cust svcs cb d s n =>
    dbAfter db (createAppointment cc sc db nid cust svcs cb d s n)
  | .reschedule i d s => dbAfter db (rescheduleAppointment db i d s)

def runApptOps (cc : List Combo) (sc : List SvcRecord)
    (db : List Appointment) (ops : List ApptOp) : List Appointment :=
  ops.foldl (applyApptOp cc sc) db

theorem slotInv_runApptOps {cc : List Combo} {sc : List SvcRecord}
    {db : List Appointment} {ops : List ApptOp} (h : SlotInv db) :
    SlotInv (runApptOps cc sc db ops) := by
  induction ops generalizing db with
  | nil => exact h
  | cons op ops ih =>
    rw [runApptOps, List.foldl_cons]
    refine ih ?_
    cases op with
    | create nid cust svcs cb d s n => exact slotInv_create cc sc db nid cust svcs cb d s n h
    | reschedule i d s => exact slotInv_reschedule db i d s h

/-- C2.  Starting from an empty store, after any sequence of Create and
Reschedule operations (executed sequentially), every (date, time slot)
pair is held by at most one appointment whose status is pending or
confirmed. -/
theorem slot_uniqueness_after_any_ops :
    ∀ (cc : List Combo) (sc : List SvcRecord) (ops : List ApptOp)
      (d : Int) (s : String),
      (((runApptOps cc sc [] ops).filter (pcAt d s)).length ≤ 1) :=
  fun _ _ _ d s => slotInv_runApptOps slotInv_nil d s

/-! ### Combo catalog management (controllers/comboController.js, routes/combos.js) -/

/-- A combo-update request's service item: `{ service, sequence }`. -/
structure ReqSvc where
  service : Nat
  sequence : Option Nat
deriving DecidableEq

/-- The rich per-service record built by `validateAndGetServices`
(service, `svc.sequence || i + 1`, duration, price looked up from the
catalog; the `name` decoration is dropped on save anyway and not
modelled). -/
structure SvcDetail where
  service : Nat
  sequence : Nat
  duration : ℚ
  price : ℚ
deriving DecidableEq

/-- JavaScript `a || b` on numbers: 0 is falsy. -/
def jsOrNat (o : Option Nat) (dft : Nat) : Nat :=
  match o with
  | some n => if n = 0 then dft else n
  | none => dft

/-- `validateAndGetServices` (comboController.js): walk the requested
services in order, throw when one is missing from the catalog or
inactive, otherwise collect its details.  The thrown error is caught by
the controller's catch and surfaces as a server error. -/
def validateAndGetServices (catalog : List SvcRecord) :
    List ReqSvc → Nat → Except Unit (List SvcDetail)
  | [], _ => .ok []
  | r :: rs, i =>
    match catalog.find? (fun s => decide (s.id = r.service)) with
    | none => .error ()
    | some s =>
      if s.isActive then
        match validateAndGetServices catalog rs (i + 1) with
        | .error e => .error e
        | .ok ds => .ok (⟨r.service, jsOrNat r.sequence (i + 1), s.duration, s.price⟩ :: ds)
      else .error ()

/-- The effective price of a combo member in `calculatePrice`:
`svc.price || svc.service?.price || 0`.  The stored subdocument has no
price field (the schema drops it), so this resolves to the populated
catalog price, or 0 for a dangling reference. -/
def svcPrice (catalog : List SvcRecord) (sid : Nat) : ℚ :=
  match catalog.find? (fun s => decide (s.id = sid)) with
  | some s => s.price
  | none => 0

/-- `calculatePrice` (comboController.js): sum of effective member
prices, reduced by the percentage discount, floored at zero. -/
def calculatePrice (catalog : List SvcRecord) (members : List ComboSvc)
    (discount : ℚ) : ℚ :=
  let basePrice := (members.map (fun m => svcPrice catalog m.service)).sum
  max 0 (basePrice - basePrice * discount / 100)

/-- Fields of a PUT /api/combos/:id request body. -/
structure ComboUpdateReq where
  name : Option String
  description : Option String
  services : Option (List ReqSvc)
  discount : Option ℚ
  gender : Option String

/-- The express-validator chain on PUT /api/combos/:id: optional
non-empty name, optional discount in [0, 100], optional enumerated
gender. -/
def comboUpdateValidB (req : ComboUpdateReq) : Bool :=
  (match req.name with | some n => decide (n ≠ "") | none => true) &&
  (match req.discount with | some d => decide (0 ≤ d ∧ d ≤ 100) | none => true) &&
  (match req.gender with | some g => decide (g ∈ ["male", "female", "unisex"]) | none => true)

inductive ComboErr
  | validation
  | notFound
  | server
deriving DecidableEq

/-- `updateCombo` (comboController.js): route validation first (a failed
validation replies 400 before the controller touches the store), then
lookup, field updates, optional service-list replacement with
revalidation, and an unconditional price recomputation before save. -/
def updateCombo (catalog : List SvcRecord) (combos : List Combo) (id : Nat)
    (req : ComboUpdateReq) : Except ComboErr (List Combo × Combo) :=
  if ¬ comboUpdateValidB req then .error .validation
  else
    match combos.find? (fun c => decide (c.id = id)) with
    | none => .error .notFound
    | some c =>
      let c1 : Combo := {c with
        name := req.name.getD c.name,
        description := req.description.getD c.description,
        gender := req.gender.getD c.gender,
        discount := req.discount.getD c.discount}
      match req.services with
      | some svcs =>
        match validateAndGetServices catalog svcs 0 with
        | .error _ => .error .server
        | .ok ds =>
          let c2 : Combo := {c1 with
            services := ds.map (fun x => ⟨x.service, x.sequence⟩),
            totalDuration := (ds.map (fun x => x.duration)).sum}
          let c3 : Combo := {c2 with
            totalPrice := calculatePrice catalog c2.services c2.discount}
          .ok (updateFirst (fun b => decide (b.id = id)) (fun _ => c3) combos, c3)
      | none =>
        let c3 : Combo := {c1 with
          totalPrice := calculatePrice catalog c1.services c1.discount}
        .ok (updateFirst (fun b => decide (b.id = id)) (fun _ => c3) combos, c3)

/-- The combo store after an update call (an error reply leaves it). -/
def combosAfter (combos : List Combo) :
    Except ComboErr (List Combo × Combo) → List Combo
  | .ok out => out.1
  | .error _ => combos

theorem validateAndGetServices_ok {catalog : List SvcRecord} :
    ∀ (svcs : List ReqSvc) (i : Nat),
      (∀ r ∈ svcs, ∃ s, catalog.find? (fun t => decide (t.id = r.service)) = some s ∧
        s.isActive = true) →
      ∃ ds, validateAndGetServices catalog svcs i = .ok ds ∧
        ds.map (fun x => x.service) = svcs.map (fun r => r.service) := by
  intro svcs
  induction svcs with
  | nil => exact fun i _ => ⟨[], rfl, rfl⟩
  | cons r rs ih =>
    intro i h
    rcases h r (by simp) with ⟨s, hfind, hact⟩
    rcases ih (i + 1) (fun x hx => h x (List.mem_cons_of_mem _ hx)) with ⟨ds, hok, hmap⟩
    refine ⟨⟨r.service, jsOrNat r.sequence (i + 1), s.duration, s.price⟩ :: ds, ?_, ?_⟩
    · simp [validateAndGetServices, hfind, hact, hok]
    · simp [hmap]

/-- C3.  For every store: an UpdateCombo carrying discount 150 fails the
route's 0–100 validation, replying VALIDATION with the store untouched;
and an otherwise valid update carrying discount d and a service list
whose members are all present and active stores discount d and
totalPrice = max 0 (S − S·d/100), S the sum of the members' catalog
prices. -/
theorem updateCombo_discount_contract :
    ∀ (catalog : List SvcRecord) (combos : List Combo) (id : Nat)
      (req : ComboUpdateReq),
    (req.discount = some 150 →
      updateCombo catalog combos id req = .error .validation ∧
      combosAfter combos (updateCombo catalog combos id req) = combos)
    ∧ (∀ (d : ℚ) (svcs : List ReqSvc) (c : Combo),
        req.discount = some d → req.services = some svcs →
        comboUpdateValidB req = true →
        (∀ r ∈ svcs, ∃ s, catalog.find? (fun t => decide (t.id = r.service)) = some s ∧
          s.isActive = true) →
        combos.find? (fun c0 => decide (c0.id = id)) = some c →
        Except.map (fun out => (out.2.discount, out.2.totalPrice))
            (updateCombo catalog combos id req)
          = .ok (d, max 0 ((svcs.map (fun r => svcPrice catalog r.service)).sum -
              (svcs.map (fun r => svcPrice catalog r.service)).sum * d / 100))) := by
  intro catalog combos id req
  constructor
  · intro hreq
    have hD : (decide ((0:ℚ) ≤ 150 ∧ (150:ℚ) ≤ 100)) = false := by
      rw [decide_eq_false_iff_not]
      intro hc
      have := hc.2
      norm_num at this
    have hv : comboUpdateValidB req = false := by
      simp only [comboUpdateValidB, hreq, hD, Bool.and_false, Bool.false_and]
    constructor
    · simp [updateCombo, hv]
    · simp [updateCombo, hv, combosAfter]
  · intro d svcs c hd hsv hvalid hall hfind
    rcases validateAndGetServices_ok svcs 0 hall with ⟨ds, hok, hmap⟩
    have hbase : ((ds.map (fun x => (⟨x.service, x.sequence⟩ : ComboSvc))).map
        (fun m => svcPrice catalog m.service)).sum
        = (svcs.map (fun r => svcPrice catalog r.service)).sum := by
      rw [List.map_map]
      have h1 : ((fun m : ComboSvc => svcPrice catalog m.service) ∘
          fun x : SvcDetail => (⟨x.service, x.sequence⟩ : ComboSvc))
          = (fun sid => svcPrice catalog sid) ∘ (fun x : SvcDetail => x.service) := rfl
      have h3 : (fun r : ReqSvc => svcPrice catalog r.service)
          = (fun sid => svcPrice catalog sid) ∘ (fun r : ReqSvc => r.service) := rfl
      rw [h1, h3, ← List.map_map, ← List.map_map, hmap]
    have hstep : updateCombo catalog combos id req = .ok
        (updateFirst (fun b => decide (b.id = id))
          (fun _ => {c with
            name := req.name.getD c.name,
            description := req.description.getD c.description,
            gender := req.gender.getD c.gender,
            discount := req.discount.getD c.discount,
            services := ds.map (fun x => ⟨x.service, x.sequence⟩),
            totalDuration := (ds.map (fun x => x.duration)).sum,
            totalPrice := calculatePrice catalog
              (ds.map (fun x => (⟨x.service, x.sequence⟩ : ComboSvc)))
              (req.discount.getD c.discount)}) combos,
          {c with
            name := req.name.getD c.name,
            description := req.description.getD c.description,
            gender := req.gender.getD c.gender,
            discount := req.discount.getD c.discount,
            services := ds.map (fun x => ⟨x.service, x.sequence⟩),
            totalDuration := (ds.map (fun x => x.duration)).sum,
            totalPrice := calculatePrice catalog
              (ds.map (fun x => (⟨x.service, x.sequence⟩ : ComboSvc)))
              (req.discount.getD c.discount)}) := by
      simp only [updateCombo, hvalid, eq_self_iff_true, not_true, if_false,
        hfind, hsv, hok]
    rw [hstep]
    simp only [Except.map, hd, Option.getD_some, calculatePrice, hbase]

/-- Witness for C3: a combo over services priced 100/200/300 updated
with discount 10 stores totalPrice 540, and the same update with
discount 150 is rejected as a validation error with the store
unchanged. -/
theorem updateCombo_discount_contract_witness :
    (updateCombo
        [⟨11, 10, 100, true⟩, ⟨12, 15, 200, true⟩, ⟨13, 20, 300, true⟩]
        [⟨1, "Pack", "", [⟨11, 1⟩, ⟨12, 2⟩, ⟨13, 3⟩], "unisex", 45, 600, 0, true⟩] 1
        ⟨none, none, none, some 150, none⟩ = .error .validation)
    ∧ Except.map (fun out => (out.2.discount, out.2.totalPrice))
        (updateCombo
          [⟨11, 10, 100, true⟩, ⟨12, 15, 200, true⟩, ⟨13, 20, 300, true⟩]
          [⟨1, "Pack", "", [⟨11, 1⟩, ⟨12, 2⟩, ⟨13, 3⟩], "unisex", 45, 600, 0, true⟩] 1
          ⟨none, none, some [⟨11, some 1⟩, ⟨12, some 2⟩, ⟨13, some 3⟩], some 10, none⟩)
        = .ok ((10 : ℚ), (540 : ℚ)) := by
  constructor
  · exact ((updateCombo_discount_contract
      [⟨11, 10, 100, true⟩, ⟨12, 15, 200, true⟩, ⟨13, 20, 300, true⟩]
      [⟨1, "Pack", "", [⟨11, 1⟩, ⟨12, 2⟩, ⟨13, 3⟩], "unisex", 45, 600, 0, true⟩] 1
      ⟨none, none, none, some 150, none⟩).1 rfl).1
  · have h2 := (updateCombo_discount_contract
        [⟨11, 10, 100, true⟩, ⟨12, 15, 200, true⟩, ⟨13, 20, 300, true⟩]
        [⟨1, "Pack", "", [⟨11, 1⟩, ⟨12, 2⟩, ⟨13, 3⟩], "unisex", 45, 600, 0, true⟩] 1
        ⟨none, none, some [⟨11, some 1⟩, ⟨12, some 2⟩, ⟨13, some 3⟩], some 10, none⟩).2
        10 [⟨11, some 1⟩, ⟨12, some 2⟩, ⟨13, some 3⟩]
        ⟨1, "Pack", "", [⟨11, 1⟩, ⟨12, 2⟩, ⟨13, 3⟩], "unisex", 45, 600, 0, true⟩
        rfl rfl (by norm_num [comboUpdateValidB])
        (by
          intro r hr
          simp only [List.mem_cons, List.not_mem_nil, or_false] at hr
          rcases hr with rfl | rfl | rfl
          · exact ⟨⟨11, 10, 100, true⟩, rfl, rfl⟩
          · exact ⟨⟨12, 15, 200, true⟩, rfl, rfl⟩
          · exact ⟨⟨13, 20, 300, true⟩, rfl, rfl⟩)
        rfl
    rw [h2]
    norm_num [svcPrice, List.find?]

/-- C10.  When Create receives both a non-empty services list and a
comboId, it never replies with the missing-items rejection (that guard
only fires when both are absent); the combo is validated, the services
list is silently discarded, and — given an active combo and a free slot —
a pending appointment with the combo and no services is persisted.
The final conjunct records that the missing-items rejection does fire
when both inputs are absent. -/
theorem createAppointment_both_inputs :
    ∀ (cc : List Combo) (sc : List SvcRecord) (db : List Appointment)
      (nid cust : Nat) (svcs : List Nat) (c : Nat) (date : Int)
      (slot : String) (notes : String),
    svcs ≠ [] →
    (createAppointment cc sc db nid cust svcs (some c) date slot notes
        ≠ .error .missingItems)
    ∧ (slot ∈ timeSlots →
        (cc.find? (fun cb => decide (cb.id = c ∧ cb.isActive))).isSome = true →
        db.find? (sameKey date slot) = none →
        createAppointment cc sc db nid cust svcs (some c) date slot notes
          = .ok (db ++ [⟨nid, cust, [], some c, date, slot, .pending, notes⟩]))
    ∧ (∀ (db2 : List Appointment) (nid2 cust2 : Nat) (d2 : Int) (s2 : String)
        (n2 : String), s2 ∈ timeSlots →
        createAppointment cc sc db2 nid2 cust2 [] none d2 s2 n2
          = .error .missingItems) := by
  intro cc sc db nid cust svcs c date slot notes hsvcs
  refine ⟨?_, ?_, ?_⟩
  · unfold createAppointment
    split
    · simp
    split
    · next hcond => simp at hcond
    split
    · simp
    split
    · next _ c2 heq =>
      split
      · unfold saveNew
        split
        · simp
        · simp
      · simp
    · next _ heq => simp at heq
  · intro hslot hcombo hkey
    have hpcnone : db.find? (pcAt date slot) = none := by
      refine List.find?_eq_none.mpr (fun x hx => ?_)
      have hnk := List.find?_eq_none.mp hkey x hx
      simp only [sameKey, decide_eq_true_eq] at hnk
      simp only [pcAt, decide_eq_true_eq]
      intro hc
      exact hnk ⟨hc.1, hc.2.1⟩
    have hnotin : ¬ slot ∉ timeSlots := by simpa using hslot
    unfold createAppointment
    rw [if_neg hnotin, if_neg (by simp), hpcnone]
    simp only [Option.isSome_none, Bool.false_eq_true, if_false]
    rw [hcombo]
    simp only [if_true]
    unfold saveNew
    rw [hkey]
    simp
  · intro db2 nid2 cust2 d2 s2 n2 hslot2
    have hnotin : ¬ s2 ∉ timeSlots := by simpa using hslot2
    unfold createAppointment
    rw [if_neg hnotin, if_pos ⟨rfl, rfl⟩]

/-- Witness for C10: creating with services [9] *and* combo 5 supplied
succeeds, persisting a pending appointment holding the combo and an
empty services list. -/
theorem createAppointment_both_inputs_witness :
    createAppointment combosActiveFive [] [] 2 8 [9] (some 5) 0 "9:00 AM" ""
      = .ok [⟨2, 8, [], some 5, 0, "9:00 AM", ApptStatus.pending, ""⟩] := by
  have h := ((createAppointment_both_inputs combosActiveFive [] [] 2 8 [9] 5
      0 "9:00 AM" "" (by decide)).2).1 (by decide) rfl rfl
  exact h.trans rfl

/-! ### Attendance ledger (models/Attendance.js, controllers/staffController.js)

The attendance schema carries staffId, date, optional checkIn/checkOut
instants with validators (not in the future; checkOut at or after
checkIn), a status enum defaulting to Present, an isHoliday flag, notes,
and a unique compound index on (staffId, date).  Only the staff fields
the modelled operations read (_id, isActive) are carried here. -/

structure StaffRec where
  id : Nat
  isActive : Bool
deriving DecidableEq

inductive AttStatus
  | present
  | absent
  | late
  | halfDay
  | holiday
deriving DecidableEq

structure AttRecord where
  staffId : Nat
  date : Int
  checkIn : Option Int
  checkOut : Option Int
  status : AttStatus
  isHoliday : Bool
  notes : Option String
deriving DecidableEq

inductive AttAction
  | checkIn
  | checkOut
deriving DecidableEq

inductive AttErr
  | notFound
  | alreadyDone
  | invalidState
  | validation
deriving DecidableEq

/-- The (staffId, date) compound key of the unique index and of the
`findOne({ staffId, date })` lookups. -/
def attKey (sid : Nat) (d : Int) (r : AttRecord) : Bool :=
  decide (r.staffId = sid ∧ r.date = d)

/-- The mongoose validators run by `attendance.save()`: check-in and
check-out may not lie in the future, and when both are present the
check-out must be at or after the check-in.  A failure is reported by
the controller as a 400 validation reply. -/
def attValidB (r : AttRecord) (now : Int) : Bool :=
  (match r.checkIn with | some t => decide (t ≤ now) | none => true) &&
  (match r.checkOut with | some t => decide (t ≤ now) | none => true) &&
  (match r.checkIn, r.checkOut with
   | some i, some o => decide (i ≤ o)
   | _, _ => true)

/-- `attendance[action] = recordTime`. -/
def setAttAction (r : AttRecord) (action : AttAction) (t : Int) : AttRecord :=
  match action with
  | .checkIn => {r with checkIn := some t}
  | .checkOut => {r with checkOut := some t}

/-- `new Attendance({ staffId, date, status: 'Present' })`. -/
def newAttRecord (sid : Nat) (d : Int) : AttRecord :=
  ⟨sid, d, none, none, .present, false, none⟩

/-- `recordAttendance` (staffController.js), after string parsing: staff
must exist and be active (404 otherwise); against the existing record at
(staffId, canonical day) a duplicate check-in or check-out is rejected
as already-done and a check-out with no check-in on the record as an
invalid state; then the action time is set and the document saved under
the schema validators. -/
def recordAttendance (staff : List StaffRec) (db : List AttRecord)
    (sid : Nat) (action : AttAction) (recordTime recordDate now : Int) :
    Except AttErr (List AttRecord) :=
  match staff.find? (fun st => decide (st.id = sid)) with
  | none => .error .notFound
  | some st =>
    if ¬ st.isActive then .error .notFound
    else
      match db.find? (attKey sid recordDate) with
      | some ex =>
        if action = .checkIn ∧ ex.checkIn.isSome then .error .alreadyDone
        else if action = .checkOut ∧ ex.checkIn = none then .error .invalidState
        else if action = .checkOut ∧ ex.checkOut.isSome then .error .alreadyDone
        else if attValidB (setAttAction ex action recordTime) now then
          .ok (updateFirst (attKey sid recordDate)
            (fun _ => setAttAction ex action recordTime) db)
        else .error .validation
      | none =>
        if attValidB (setAttAction (newAttRecord sid recordDate) action recordTime) now then
          .ok (db ++ [setAttAction (newAttRecord sid recordDate) action recordTime])
        else .error .validation

/-- At most one attendance record per (staffId, day). -/
def AttInv (db : List AttRecord) : Prop :=
  ∀ sid d, ((db.filter (attKey sid d)).length ≤ 1)

theorem setAttAction_staffId (r : AttRecord) (a : AttAction) (t : Int) :
    (setAttAction r a t).staffId = r.staffId := by
  cases a <;> rfl

theorem setAttAction_date (r : AttRecord) (a : AttAction) (t : Int) :
    (setAttAction r a t).date = r.date := by
  cases a <;> rfl

theorem attKey_setAttAction (sid : Nat) (d : Int) (r : AttRecord)
    (a : AttAction) (t : Int) :
    attKey sid d (setAttAction r a t) = attKey sid d r := by
  simp [attKey, setAttAction_staffId, setAttAction_date]

theorem attInv_recordAttendance {staff : List StaffRec} {db : List AttRecord}
    {sid : Nat} {action : AttAction} {recordTime recordDate now : Int}
    (h : AttInv db) :
    AttInv (dbAfter db
      (recordAttendance staff db sid action recordTime recordDate now)) := by
  unfold recordAttendance
  split
  · exact h
  split
  · exact h
  split
  · -- an existing record is updated in place; its key does not change
    next ex hex =>
    split
    · exact h
    split
    · exact h
    split
    · exact h
    split
    · intro sid2 d2
      have hexk0 : attKey sid recordDate ex = true := List.find?_some hex
      have hexk : ex.staffId = sid ∧ ex.date = recordDate := by
        simpa [attKey] using hexk0
      have hkeep : ∀ x, attKey sid recordDate x = true →
          attKey sid2 d2 (setAttAction ex action recordTime) = attKey sid2 d2 x := by
        intro x hx
        have hx2 : x.staffId = sid ∧ x.date = recordDate := by
          simpa [attKey] using hx
        rw [attKey_setAttAction]
        simp [attKey, hx2.1, hx2.2, hexk.1, hexk.2]
      exact le_trans (le_of_eq (filter_length_updateFirst_eq hkeep)) (h sid2 d2)
    · exact h
  · -- a fresh record is appended; no record held its key before
    next hnone =>
    split
    · intro sid2 d2
      simp only [dbAfter, List.filter_append, List.length_append]
      cases hq : attKey sid2 d2 (setAttAction (newAttRecord sid recordDate) action recordTime) with
      | false =>
        simp only [List.filter_cons, hq, Bool.false_eq_true, if_false,
          List.filter_nil, List.length_nil, Nat.add_zero]
        exact h sid2 d2
      | true =>
        have hq2 := hq
        rw [attKey_setAttAction] at hq2
        have hk : (newAttRecord sid recordDate).staffId = sid2 ∧
            (newAttRecord sid recordDate).date = d2 := by
          simpa [attKey] using hq2
        have hsid : sid = sid2 := by simpa [newAttRecord] using hk.1
        have hd : recordDate = d2 := by simpa [newAttRecord] using hk.2
        have hempty : db.filter (attKey sid2 d2) = [] := by
          rw [← hsid, ← hd]
          exact List.filter_eq_nil_iff.mpr
            (fun x hx => by simpa using List.find?_eq_none.mp hnone x hx)
        simp [hempty, List.filter_cons, hq]
    · exact h

/-- C7.  At most one attendance record per (staffId, day) is preserved
by RecordAttendance, and against the existing record of an active staff
member: a repeated check-in fails ALREADY_DONE, a check-out with no
check-in on the record fails INVALID_STATE, a repeated check-out fails
ALREADY_DONE, and in each failing case the store is unchanged. -/
theorem recordAttendance_state_machine :
    ∀ (staff : List StaffRec) (db : List AttRecord) (sid : Nat)
      (t d now : Int),
    (∀ action, AttInv db →
      AttInv (dbAfter db (recordAttendance staff db sid action t d now)))
    ∧ (∀ st ex, staff.find? (fun s0 => decide (s0.id = sid)) = some st →
        st.isActive = true →
        db.find? (attKey sid d) = some ex →
        ((ex.checkIn.isSome = true →
          recordAttendance staff db sid .checkIn t d now = .error .alreadyDone ∧
          dbAfter db (recordAttendance staff db sid .checkIn t d now) = db)
        ∧ (ex.checkIn = none →
          recordAttendance staff db sid .checkOut t d now = .error .invalidState ∧
          dbAfter db (recordAttendance staff db sid .checkOut t d now) = db)
        ∧ (ex.checkIn.isSome = true → ex.checkOut.isSome = true →
          recordAttendance staff db sid .checkOut t d now = .error .alreadyDone ∧
          dbAfter db (recordAttendance staff db sid .checkOut t d now) = db))) := by
  intro staff db sid t d now
  constructor
  · intro action hinv
    exact attInv_recordAttendance hinv
  · intro st ex hstaff hact hfind
    have hret : ∀ e : AttErr,
        recordAttendance staff db sid .checkIn t d now = .error e →
        dbAfter db (recordAttendance staff db sid .checkIn t d now) = db := by
      intro e he
      rw [he]
      rfl
    have hret2 : ∀ e : AttErr,
        recordAttendance staff db sid .checkOut t d now = .error e →
        dbAfter db (recordAttendance staff db sid .checkOut t d now) = db := by
      intro e he
      rw [he]
      rfl
    refine ⟨?_, ?_, ?_⟩
    · intro hin
      have he : recordAttendance staff db sid .checkIn t d now = .error .alreadyDone := by
        simp only [recordAttendance, hstaff, hfind]
        simp [hact, hin]
      exact ⟨he, hret _ he⟩
    · intro hin
      have he : recordAttendance staff db sid .checkOut t d now = .error .invalidState := by
        simp only [recordAttendance, hstaff, hfind]
        simp [hact, hin]
      exact ⟨he, hret2 _ he⟩
    · intro hin hout
      have he : recordAttendance staff db sid .checkOut t d now = .error .alreadyDone := by
        have hne : ex.checkIn ≠ none := by
          intro hc
          rw [hc] at hin
          simp at hin
        simp only [recordAttendance, hstaff, hfind]
        simp [hact, hne, hout]
      exact ⟨he, hret2 _ he⟩

/-- Witness for C7: with one active staff member (id 1) and an existing
record for day 0 holding checkIn and checkOut, a repeated check-in and a
repeated check-out fail ALREADY_DONE; with a record holding no check-in,
check-out fails INVALID_STATE. -/
theorem recordAttendance_state_machine_witness :
    (recordAttendance [⟨1, true⟩] [⟨1, 0, some 100, some 200, .present, false, none⟩]
        1 .checkIn 300 0 1000 = .error .alreadyDone)
    ∧ (recordAttendance [⟨1, true⟩] [⟨1, 0, some 100, some 200, .present, false, none⟩]
        1 .checkOut 300 0 1000 = .error .alreadyDone)
    ∧ (recordAttendance [⟨1, true⟩] [⟨1, 0, none, none, .present, false, none⟩]
        1 .checkOut 300 0 1000 = .error .invalidState) := by
  have h1 := (recordAttendance_state_machine [⟨1, true⟩]
      [⟨1, 0, some 100, some 200, .present, false, none⟩] 1 300 0 1000).2
      ⟨1, true⟩ ⟨1, 0, some 100, some 200, .present, false, none⟩ rfl rfl rfl
  have h2 := (recordAttendance_state_machine [⟨1, true⟩]
      [⟨1, 0, none, none, .present, false, none⟩] 1 300 0 1000).2
      ⟨1, true⟩ ⟨1, 0, none, none, .present, false, none⟩ rfl rfl rfl
  exact ⟨(h1.1 rfl).1, (h1.2.2 rfl rfl).1, (h2.2.1 rfl).1⟩

/-- JavaScript `Number.prototype.toFixed(2)` on the nonnegative values at
hand: round to the nearest hundredth, half away from zero. -/
def hsRound2 (q : ℚ) : ℚ := ((⌊q * 100 + 1 / 2⌋ : ℤ) : ℚ) / 100

/-- The `workingHours` virtual of the attendance schema: 0 when either
endpoint is missing, otherwise the checkIn→checkOut difference
(milliseconds) expressed in hours with two decimal places. -/
def workingHours (r : AttRecord) : ℚ :=
  match r.checkIn, r.checkOut with
  | some i, some o => hsRound2 (((o - i : ℤ) : ℚ) / 3600000)
  | _, _ => 0

/-- C8.  A check-out earlier than the record's check-in is rejected: the
schema validator fails the save, the controller replies with a
validation error, and the stored record keeps its prior value.  And the
derived workingHours is the two-decimal rounding of the span in hours
when both endpoints are present, 0 when either is missing. -/
theorem attendance_workingHours_contract :
    ∀ (staff : List StaffRec) (db : List AttRecord) (sid : Nat)
      (t d now : Int) (st : StaffRec) (ex : AttRecord) (ci : Int),
    staff.find? (fun s0 => decide (s0.id = sid)) = some st →
    st.isActive = true →
    db.find? (attKey sid d) = some ex →
    ex.checkIn = some ci →
    ex.checkOut = none →
    t < ci →
    (recordAttendance staff db sid .checkOut t d now = .error .validation ∧
      dbAfter db (recordAttendance staff db sid .checkOut t d now) = db)
    ∧ (∀ (r : AttRecord) (i o : Int), r.checkIn = some i → r.checkOut = some o →
        workingHours r = hsRound2 (((o - i : ℤ) : ℚ) / 3600000))
    ∧ (∀ r : AttRecord, (r.checkIn = none ∨ r.checkOut = none) →
        workingHours r = 0) := by
  intro staff db sid t d now st ex ci hstaff hact hfind hci hco ht
  refine ⟨?_, ?_, ?_⟩
  · have hinval : attValidB (setAttAction ex .checkOut t) now = false := by
      have h3 : (decide (ci ≤ t)) = false := decide_eq_false (not_le.mpr ht)
      simp only [attValidB, setAttAction, hci, h3, Bool.and_false]
    have he : recordAttendance staff db sid .checkOut t d now = .error .validation := by
      simp only [recordAttendance, hstaff, hfind]
      simp [hact, hci, hco, hinval]
    refine ⟨he, by rw [he]; rfl⟩
  · intro r i o hi ho
    simp [workingHours, hi, ho]
  · intro r hmiss
    rcases hmiss with hmiss | hmiss <;> simp [workingHours, hmiss]

/-- Witness for C8: a record checked in at 09:00 (UTC, day 0) rejects a
08:00 check-out, and once checked out at 18:00 the derived workingHours
is 9. -/
theorem attendance_workingHours_contract_witness :
    (recordAttendance [⟨1, true⟩]
        [⟨1, 0, some 32400000, none, .present, false, none⟩]
        1 .checkOut 28800000 0 86400000 = .error .validation)
    ∧ workingHours ⟨1, 0, some 32400000, some 64800000, .present, false, none⟩ = 9 := by
  have h := attendance_workingHours_contract [⟨1, true⟩]
      [⟨1, 0, some 32400000, none, .present, false, none⟩]
      1 28800000 0 86400000 ⟨1, true⟩
      ⟨1, 0, some 32400000, none, .present, false, none⟩ 32400000
      rfl rfl rfl rfl rfl (by norm_num)
  refine ⟨h.1.1, ?_⟩
  rw [h.2.1 ⟨1, 0, some 32400000, some 64800000, .present, false, none⟩
      32400000 64800000 rfl rfl]
  norm_num [hsRound2, Int.floor_eq_iff]

/-! ### Holiday declaration (declareHoliday in staffController.js) -/

/-- JavaScript `notes || "Public Holiday"`: the empty string is falsy. -/
def jsOrStr : Option String → String
  | some s => if s = "" then "Public Holiday" else s
  | none => "Public Holiday"

/-- The record an upsert of `declareHoliday` leaves at (staffId, date):
status Holiday, isHoliday, notes, check-in/check-out cleared. -/
def holidayRec (sid : Nat) (d : Int) (notes : Option String) : AttRecord :=
  ⟨sid, d, none, none, .holiday, true, some (jsOrStr notes)⟩

/-- The `$set` payload of each bulk `updateOne`. -/
def setHolidayFields (notes : Option String) (r : AttRecord) : AttRecord :=
  {r with status := AttStatus.holiday, isHoliday := true,
          notes := some (jsOrStr notes), checkIn := none, checkOut := none}

/-- One `updateOne({filter: {staffId, date}, update: {$set: …}, upsert: true})`. -/
def applyHolidayUpsert (d : Int) (notes : Option String)
    (db : List AttRecord) (sid : Nat) : List AttRecord :=
  if (db.find? (attKey sid d)).isSome then
    updateFirst (attKey sid d) (setHolidayFields notes) db
  else db ++ [holidayRec sid d notes]

/-- `declareHoliday` (staffController.js): reject dates before the
canonical current day, then bulk-upsert a Holiday record for every
currently-active staff member (an ordered bulkWrite, i.e. a sequential
fold of upserts). -/
def declareHoliday (staff : List StaffRec) (db : List AttRecord)
    (d : Int) (notes : Option String) (today : Int) :
    Except AttErr (List AttRecord) :=
  if d < today then .error .validation
  else .ok (((staff.filter (fun st => st.isActive)).map (fun st => st.id)).foldl
    (applyHolidayUpsert d notes) db)

theorem attKey_setHolidayFields (s2 : Nat) (d2 : Int) (notes : Option String)
    (r : AttRecord) :
    attKey s2 d2 (setHolidayFields notes r) = attKey s2 d2 r := by
  simp [attKey, setHolidayFields]

theorem setHolidayFields_of_key {sid : Nat} {d : Int} {notes : Option String}
    {r : AttRecord} (hr : attKey sid d r = true) :
    setHolidayFields notes r = holidayRec sid d notes := by
  obtain ⟨h1, h2⟩ : r.staffId = sid ∧ r.date = d := by simpa [attKey] using hr
  cases r
  simp only [setHolidayFields, holidayRec]
  simp_all

theorem attKey_holidayRec (s2 sid : Nat) (d2 d : Int) (notes : Option String) :
    attKey s2 d2 (holidayRec sid d notes) = decide (sid = s2 ∧ d = d2) := by
  simp [attKey, holidayRec]

theorem upsert_find_self (d : Int) (notes : Option String)
    (db : List AttRecord) (sid : Nat) :
    (applyHolidayUpsert d notes db sid).find? (attKey sid d)
      = some (holidayRec sid d notes) := by
  unfold applyHolidayUpsert
  cases hfind : db.find? (attKey sid d) with
  | some a =>
    simp only [hfind, Option.isSome_some, if_true]
    have ha : attKey sid d a = true := List.find?_some hfind
    have hstep := find?_updateFirst_self (f := setHolidayFields notes) hfind
      (by rw [attKey_setHolidayFields]; exact ha)
    rw [hstep, setHolidayFields_of_key ha]
  | none =>
    simp only [hfind, Option.isSome_none, Bool.false_eq_true, if_false]
    rw [List.find?_append, hfind]
    simp [List.find?_cons, attKey_holidayRec]

theorem upsert_find_other {sid2 sid : Nat} (hsid : sid2 ≠ sid) (d d2 : Int)
    (notes : Option String) (db : List AttRecord) :
    (applyHolidayUpsert d notes db sid).find? (attKey sid2 d2)
      = db.find? (attKey sid2 d2) := by
  unfold applyHolidayUpsert
  cases hfind : db.find? (attKey sid d) with
  | some a =>
    simp only [hfind, Option.isSome_some, if_true]
    refine find?_updateFirst_other ?_ ?_
    · intro x hx
      obtain ⟨h1, _⟩ : x.staffId = sid ∧ x.date = d := by simpa [attKey] using hx
      simp only [attKey, decide_eq_false_iff_not]
      intro hc
      exact hsid (by rw [← hc.1, h1])
    · intro x hx
      rw [attKey_setHolidayFields]
      obtain ⟨h1, _⟩ : x.staffId = sid ∧ x.date = d := by simpa [attKey] using hx
      simp only [attKey, decide_eq_false_iff_not]
      intro hc
      exact hsid (by rw [← hc.1, h1])
  | none =>
    simp only [hfind, Option.isSome_none, Bool.false_eq_true, if_false]
    rw [List.find?_append]
    have hone : ([holidayRec sid d notes].find? (attKey sid2 d2)) = none := by
      simp only [List.find?_cons, attKey_holidayRec]
      have : (decide (sid = sid2 ∧ d = d2)) = false := by
        simp only [decide_eq_false_iff_not]
        intro hc
        exact hsid hc.1.symm
      simp [this]
    rw [hone, Option.or_none]

theorem upsert_attInv {db : List AttRecord} (d : Int) (notes : Option String)
    (sid : Nat) (h : AttInv db) :
    AttInv (applyHolidayUpsert d notes db sid) := by
  unfold applyHolidayUpsert
  cases hfind : db.find? (attKey sid d) with
  | some a =>
    simp only [hfind, Option.isSome_some, if_true]
    intro sid2 d2
    refine le_trans (le_of_eq (filter_length_updateFirst_eq ?_)) (h sid2 d2)
    intro x _
    rw [attKey_setHolidayFields]
  | none =>
    simp only [hfind, Option.isSome_none, Bool.false_eq_true, if_false]
    intro sid2 d2
    rw [List.filter_append, List.length_append]
    cases hq : attKey sid2 d2 (holidayRec sid d notes) with
    | false =>
      simp only [List.filter_cons, hq, Bool.false_eq_true, if_false,
        List.filter_nil, List.length_nil, Nat.add_zero]
      exact h sid2 d2
    | true =>
      obtain ⟨h1, h2⟩ : sid = sid2 ∧ d = d2 := by
        rw [attKey_holidayRec] at hq
        exact of_decide_eq_true hq
      have hempty : db.filter (attKey sid2 d2) = [] := by
        rw [← h1, ← h2]
        exact List.filter_eq_nil_iff.mpr
          (fun x hx => by simpa using List.find?_eq_none.mp hfind x hx)
      simp [hempty, List.filter_cons, hq]

theorem upsert_mem {r : AttRecord} {d : Int} {notes : Option String}
    {db : List AttRecord} {sid : Nat}
    (h : r ∈ applyHolidayUpsert d notes db sid) :
    r ∈ db ∨ r = holidayRec sid d notes := by
  unfold applyHolidayUpsert at h
  split at h
  · rcases mem_updateFirst h with h | ⟨x, _, hpx, rfl⟩
    · exact Or.inl h
    · exact Or.inr (setHolidayFields_of_key hpx)
  · rcases List.mem_append.mp h with h | h
    · exact Or.inl h
    · exact Or.inr (by simpa using h)

theorem foldHol_find_other {sid2 : Nat} {sids : List Nat}
    (hall : ∀ y ∈ sids, y ≠ sid2) (d d2 : Int) (notes : Option String)
    (db : List AttRecord) :
    (sids.foldl (applyHolidayUpsert d notes) db).find? (attKey sid2 d2)
      = db.find? (attKey sid2 d2) := by
  induction sids generalizing db with
  | nil => rfl
  | cons x xs ih =>
    rw [List.foldl_cons]
    rw [ih (fun y hy => hall y (List.mem_cons_of_mem _ hy))]
    exact upsert_find_other (fun hc => hall x (by simp) hc.symm) d d2 notes db

theorem foldHol_find_self {sid : Nat} {sids : List Nat}
    (hmem : sid ∈ sids) (hnd : sids.Nodup) (d : Int) (notes : Option String)
    (db : List AttRecord) :
    (sids.foldl (applyHolidayUpsert d notes) db).find? (attKey sid d)
      = some (holidayRec sid d notes) := by
  induction sids generalizing db with
  | nil => simp at hmem
  | cons x xs ih =>
    rw [List.foldl_cons]
    rcases List.mem_cons.mp hmem with rfl | hmem2
    · have hxs : sid ∉ xs := (List.nodup_cons.mp hnd).1
      rw [foldHol_find_other (fun y hy hc => hxs (by rw [hc] at hy; exact hy)) d d notes]
      exact upsert_find_self d notes db sid
    · exact ih hmem2 (List.nodup_cons.mp hnd).2 _

theorem foldHol_attInv {sids : List Nat} {db : List AttRecord}
    (d : Int) (notes : Option String) (h : AttInv db) :
    AttInv (sids.foldl (applyHolidayUpsert d notes) db) := by
  induction sids generalizing db with
  | nil => exact h
  | cons x xs ih =>
    rw [List.foldl_cons]
    exact ih (upsert_attInv d notes x h)

theorem foldHol_mem {r : AttRecord} {sids : List Nat} {db : List AttRecord}
    {d : Int} {notes : Option String}
    (h : r ∈ sids.foldl (applyHolidayUpsert d notes) db) :
    r ∈ db ∨ ∃ s0 ∈ sids, r = holidayRec s0 d notes := by
  induction sids generalizing db with
  | nil => exact Or.inl h
  | cons x xs ih =>
    rw [List.foldl_cons] at h
    rcases ih h with h2 | ⟨s0, hs0, hr⟩
    · rcases upsert_mem h2 with h3 | h3
      · exact Or.inl h3
      · exact Or.inr ⟨x, by simp, h3⟩
    · exact Or.inr ⟨s0, List.mem_cons_of_mem _ hs0, hr⟩

/-- The full behaviour of one DeclareHoliday call on a store whose
records at the holiday date all belong to currently-active staff: every
record at the date ends up as the Holiday record of its staff member,
records at other dates are untouched, the per-key uniqueness invariant
is preserved, and the date holds exactly one record per active staff
member. -/
theorem declareHoliday_spec (staff : List StaffRec) (db : List AttRecord)
    (d : Int) (notes : Option String) (today : Int)
    (hpast : ¬ d < today)
    (hnd : ((staff.filter (fun st => st.isActive)).map (fun st => st.id)).Nodup)
    (H1 : ∀ r ∈ db, r.date = d →
      r.staffId ∈ (staff.filter (fun st => st.isActive)).map (fun st => st.id))
    (H2 : AttInv db) :
    ∃ R, declareHoliday staff db d notes today = .ok R
      ∧ (∀ r ∈ R, r.date = d →
          (r.staffId ∈ (staff.filter (fun st => st.isActive)).map (fun st => st.id)
            ∧ r = holidayRec r.staffId d notes))
      ∧ (∀ r ∈ R, r.date ≠ d → r ∈ db)
      ∧ AttInv R
      ∧ ((R.filter (fun r => decide (r.date = d))).length
          = ((staff.filter (fun st => st.isActive)).map (fun st => st.id)).length) := by
  refine ⟨((staff.filter (fun st => st.isActive)).map (fun st => st.id)).foldl
    (applyHolidayUpsert d notes) db, ?_, ?_, ?_, ?_, ?_⟩
  · simp [declareHoliday, hpast]
  · intro r hr hdate
    by_cases hin : r.staffId ∈ (staff.filter (fun st => st.isActive)).map (fun st => st.id)
    · refine ⟨hin, ?_⟩
      have hfind := foldHol_find_self hin hnd d notes db
      have hmemH := List.mem_of_find?_eq_some hfind
      have hkeyr : attKey r.staffId d r = true := by simp [attKey, hdate]
      have hkeyH : attKey r.staffId d (holidayRec r.staffId d notes) = true := by
        simp [attKey_holidayRec]
      exact eq_of_mem_of_length_le_one (foldHol_attInv d notes H2 r.staffId d)
        (List.mem_filter.mpr ⟨hr, hkeyr⟩) (List.mem_filter.mpr ⟨hmemH, hkeyH⟩)
    · exfalso
      rcases foldHol_mem hr with h2 | ⟨s0, hs0, hr2⟩
      · exact hin (H1 r h2 hdate)
      · apply hin
        rw [hr2]
        simpa [holidayRec] using hs0
  · intro r hr hdate
    rcases foldHol_mem hr with h2 | ⟨s0, _, hr2⟩
    · exact h2
    · exact absurd (show r.date = d by rw [hr2]; rfl) hdate
  · exact foldHol_attInv d notes H2
  · have hInvR : AttInv (((staff.filter (fun st => st.isActive)).map
        (fun st => st.id)).foldl (applyHolidayUpsert d notes) db) :=
      foldHol_attInv d notes H2
    have hc2 : ∀ r ∈ ((staff.filter (fun st => st.isActive)).map (fun st => st.id)).foldl
        (applyHolidayUpsert d notes) db, r.date = d →
        r.staffId ∈ (staff.filter (fun st => st.isActive)).map (fun st => st.id) := by
      intro r hr hdate
      rcases foldHol_mem hr with h2 | ⟨s0, hs0, hr2⟩
      · exact H1 r h2 hdate
      · rw [hr2]
        simpa [holidayRec] using hs0
    have hLmem : ∀ s0, s0 ∈ ((((staff.filter (fun st => st.isActive)).map
        (fun st => st.id)).foldl (applyHolidayUpsert d notes) db).filter
        (fun r => decide (r.date = d))).map (fun r => r.staffId)
        ↔ s0 ∈ (staff.filter (fun st => st.isActive)).map (fun st => st.id) := by
      intro s0
      constructor
      · intro hs
        rcases List.mem_map.mp hs with ⟨r, hrL, hrs⟩
        have hrR := (List.mem_filter.mp hrL).1
        have hrd : r.date = d := of_decide_eq_true (List.mem_filter.mp hrL).2
        rw [← hrs]
        exact hc2 r hrR hrd
      · intro hs
        have hfind := foldHol_find_self hs hnd d notes db
        have hmemH := List.mem_of_find?_eq_some hfind
        exact List.mem_map.mpr ⟨holidayRec s0 d notes,
          List.mem_filter.mpr ⟨hmemH, by simp [holidayRec]⟩, rfl⟩
    have hLnd : (((((staff.filter (fun st => st.isActive)).map
        (fun st => st.id)).foldl (applyHolidayUpsert d notes) db).filter
        (fun r => decide (r.date = d))).map (fun r => r.staffId)).Nodup := by
      rw [List.nodup_iff_count_le_one]
      intro s0
      rw [List.count_eq_countP, List.countP_map, List.countP_eq_length_filter,
        List.filter_filter]
      have hfun : (fun r : AttRecord =>
          ((fun x => x == s0) ∘ (fun r : AttRecord => r.staffId)) r
            && decide (r.date = d)) = attKey s0 d := by
        funext r
        by_cases h : r.staffId = s0 <;> simp [attKey, h]
      rw [hfun]
      exact hInvR s0 d
    have hperm := (List.perm_ext_iff_of_nodup hLnd hnd).mpr hLmem
    calc ((((staff.filter (fun st => st.isActive)).map (fun st => st.id)).foldl
            (applyHolidayUpsert d notes) db).filter
          (fun r => decide (r.date = d))).length
        = (((((staff.filter (fun st => st.isActive)).map (fun st => st.id)).foldl
            (applyHolidayUpsert d notes) db).filter
          (fun r => decide (r.date = d))).map (fun r => r.staffId)).length := by
          rw [List.length_map]
      _ = ((staff.filter (fun st => st.isActive)).map (fun st => st.id)).length :=
          hperm.length_eq

/-- C9, as stated, fails on the code: with one active staff member
(N = 1) but a pre-existing record of an *inactive* staff member at the
holiday date, DeclareHoliday succeeds and leaves two records at that
date (the inactive member's record is not touched and not counted among
the active upserts), not exactly N. -/
theorem declareHoliday_count_counterexample :
    Except.map (fun R => (R.filter (fun r => decide (r.date = 5))).length)
      (declareHoliday [⟨1, true⟩, ⟨2, false⟩]
        [⟨2, 5, none, none, .present, false, none⟩] 5 none 0) = .ok 2
    ∧ (([⟨1, true⟩, ⟨2, false⟩] : List StaffRec).filter
        (fun st => st.isActive)).length = 1 := ⟨rfl, rfl⟩

/-- C9 (amended).  DeclareHoliday rejects any date strictly before the
canonical current day.  For a non-past date, *provided every
pre-existing record at that date belongs to a currently-active staff
member* (records of inactive or deleted staff at the date are left
untouched and add to the count), the call leaves exactly N records at
the date — N the number of active staff — each equal to the Holiday
record of its staff member (status Holiday, isHoliday, check-in and
check-out cleared, prior state overwritten), with records at other
dates unchanged; and re-declaring the same date is idempotent apart
from overwriting notes. -/
theorem declareHoliday_amended :
    ∀ (staff : List StaffRec) (db : List AttRecord) (d : Int)
      (notes notes2 : Option String) (today : Int),
    (∀ d0 : Int, d0 < today →
      declareHoliday staff db d0 notes today = .error .validation)
    ∧ (¬ d < today →
      ((staff.filter (fun st => st.isActive)).map (fun st => st.id)).Nodup →
      (∀ r ∈ db, r.date = d →
        r.staffId ∈ (staff.filter (fun st => st.isActive)).map (fun st => st.id)) →
      AttInv db →
      ∃ R, declareHoliday staff db d notes today = .ok R
        ∧ (R.filter (fun r => decide (r.date = d))).length
            = ((staff.filter (fun st => st.isActive)).map (fun st => st.id)).length
        ∧ (∀ r ∈ R, r.date = d → r = holidayRec r.staffId d notes)
        ∧ (∀ r ∈ R, r.date ≠ d → r ∈ db)
        ∧ ∃ R2, declareHoliday staff R d notes2 today = .ok R2
          ∧ (R2.filter (fun r => decide (r.date = d))).length
              = ((staff.filter (fun st => st.isActive)).map (fun st => st.id)).length
          ∧ (∀ r ∈ R2, r.date = d → r = holidayRec r.staffId d notes2)
          ∧ (∀ r ∈ R2, r.date ≠ d → r ∈ R)) := by
  intro staff db d notes notes2 today
  constructor
  · intro d0 h0
    simp [declareHoliday, h0]
  · intro hpast hnd H1 H2
    rcases declareHoliday_spec staff db d notes today hpast hnd H1 H2 with
      ⟨R, hok, hc2, hc3, hInv, hcount⟩
    rcases declareHoliday_spec staff R d notes2 today hpast hnd
      (fun r hr hdate => (hc2 r hr hdate).1) hInv with
      ⟨R2, hok2, hc22, hc32, _, hcount2⟩
    exact ⟨R, hok, hcount, fun r hr hd0 => (hc2 r hr hd0).2, hc3,
      R2, hok2, hcount2, fun r hr hd0 => (hc22 r hr hd0).2, hc32⟩

/-- Witness for C9 (amended): one active staff member with a prior
check-in record at the date; declaring the holiday leaves exactly one
record at that date. -/
theorem declareHoliday_amended_witness :
    Except.map (fun R => (R.filter (fun r => decide (r.date = 5))).length)
      (declareHoliday [⟨1, true⟩] [⟨1, 5, some 100, none, .present, false, none⟩]
        5 none 0) = .ok 1 := by
  have h := (declareHoliday_amended [⟨1, true⟩]
      [⟨1, 5, some 100, none, .present, false, none⟩] 5 none (some "x") 0).2
      (by decide) (by decide) (by decide)
      (fun sid d0 => le_trans (List.length_filter_le _ _) (by decide))
  rcases h with ⟨R, hok, hcount, _⟩
  rw [hok]
  exact congrArg Except.ok (hcount.trans rfl)

end Salon
